import Mathlib

/-!
Verification development for the OpenAPI-to-operation compiler of the
statsig-io/mcp-stdio repository.

The TypeScript source is shallowly embedded:

* `Value` models runtime JSON values delivered to validators.
* `Zod` models the zod validator trees actually built by the code
  (`z.string()`, `z.union(...)`, `.optional()`, `.nullable()`, `.describe(...)`, ...)
  with `accepts` giving zod's runtime parsing success as a Boolean predicate.
* `SchemaObject` models the duck-typed OpenAPI schema node: every keyword the
  code inspects (`$ref`, `enum`, `allOf`, `oneOf`, `anyOf`, `type`, `items`,
  `properties`, `required`, `nullable`, `description`) is an independent,
  optional field, mirroring that a JS object can carry several at once.
* `ComponentsNode` models the `components` object that `resolveReference`
  walks part-by-part.
* Namespace `Api` embeds the functions of `src/api.ts` (second revision:
  `resolveReference`, `convertSchemaObjectToZod`, `convertParameterToZod`,
  `convertParametersToZod`, `convertRequestBodyToZod`, `generateZodSchema`).
* Namespace `MergeApi` embeds the revision whose `generateZodSchema` funnels
  all verbs of a path through `mergeParameters`.
* Namespace `Dispatch` embeds the `buildTools` server revision: sanitized
  tool-name assignment with the registry-size collision suffix, and the
  dispatch handler (method selection, path interpolation, query encoding,
  response handling).

Functions that can throw in JS return `Except String`; the unbounded `$ref`
recursion of `convertSchemaObjectToZod` gets an explicit fuel parameter that
bounds the recursion depth (JS would overflow the stack on cyclic references).
-/

set_option autoImplicit false

/-- A JSON literal as it appears in an `enum:` list of a schema node. -/
inductive Lit where
  | lstr (s : String)
  | lnum (n : Int)
  | lbool (b : Bool)
  | lnull
deriving DecidableEq

/-- A runtime JSON value handed to a compiled validator. -/
inductive Value where
  | vnull
  | vbool (b : Bool)
  | vnum (n : Int)
  | vstr (s : String)
  | varr (elements : List Value)
  | vobj (fields : List (String × Value))

/-- The zod validator trees the compiler builds. `zdescribe` records
`.describe(...)`, which never affects parsing. -/
inductive Zod where
  | zstring
  | znumber
  | zboolean
  | zany
  | zenum (values : List Lit)
  | zunion (options : List Zod)
  | zintersection (left right : Zod)
  | zarray (element : Zod)
  | zobject (shape : List (String × Zod))
  | znullable (inner : Zod)
  | zoptional (inner : Zod)
  | zdescribe (description : String) (inner : Zod)

/-- First-match association-list lookup: JS property read `m[k]`. -/
def lookupObj {α : Type} : List (String × α) → String → Option α
  | [], _ => none
  | (k', v) :: rest, k => if k' = k then some v else lookupObj rest k

/-- JS property write `m[k] = v`: overwrite in place, else append. -/
def objSet {α : Type} : List (String × α) → String → α → List (String × α)
  | [], k, v => [(k, v)]
  | (k', v') :: rest, k, v =>
    if k' = k then (k', v) :: rest else (k', v') :: objSet rest k v

/-- `Object.fromEntries`: later entries overwrite earlier ones. -/
def fromEntries {α : Type} (l : List (String × α)) : List (String × α) :=
  l.foldl (fun m kv => objSet m kv.1 kv.2) []

mutual

/-- Whether a zod validator accepts the absent / `undefined` input, as an
object field validator must when the key is missing. `.optional()` and
`z.any()` accept it, wrappers pass through, a union needs one accepting
member and an intersection needs both. -/
def acceptsMissing : Zod → Bool
  | .zoptional _ => true
  | .zany => true
  | .zdescribe _ z => acceptsMissing z
  | .znullable z => acceptsMissing z
  | .zunion zs => acceptsMissingAny zs
  | .zintersection a b => acceptsMissing a && acceptsMissing b
  | _ => false

def acceptsMissingAny : List Zod → Bool
  | [] => false
  | z :: zs => acceptsMissing z || acceptsMissingAny zs

end

mutual

/-- Runtime parsing success of a zod validator on a JSON value, following
zod's semantics: `z.enum` only ever matches string inputs against the stored
values, unions try every option, object validators run each field schema on
the looked-up field (or on `undefined` when absent) and strip unknown keys. -/
def accepts : Zod → Value → Bool
  | .zstring, .vstr _ => true
  | .zstring, _ => false
  | .znumber, .vnum _ => true
  | .znumber, _ => false
  | .zboolean, .vbool _ => true
  | .zboolean, _ => false
  | .zany, _ => true
  | .zenum values, .vstr s => values.contains (.lstr s)
  | .zenum _, _ => false
  | .zunion options, v => acceptsAny options v
  | .zintersection a b, v => accepts a v && accepts b v
  | .zarray e, .varr xs => acceptsElems e xs
  | .zarray _, _ => false
  | .zobject shape, .vobj fields => acceptsShape shape fields
  | .zobject _, _ => false
  | .znullable _, .vnull => true
  | .znullable z, v => accepts z v
  | .zoptional z, v => accepts z v
  | .zdescribe _ z, v => accepts z v

def acceptsAny : List Zod → Value → Bool
  | [], _ => false
  | z :: zs, v => accepts z v || acceptsAny zs v

def acceptsElems : Zod → List Value → Bool
  | _, [] => true
  | e, x :: xs => accepts e x && acceptsElems e xs

def acceptsShape : List (String × Zod) → List (String × Value) → Bool
  | [], _ => true
  | (k, z) :: rest, fields =>
    (match lookupObj fields k with
     | some fv => accepts z fv
     | none => acceptsMissing z) && acceptsShape rest fields

end

/-- The duck-typed OpenAPI schema node. Every keyword the converter inspects
is an independent optional field: a JS object can carry several keywords at
once, and the converter's `if` chain decides which one wins. A bare
`ReferenceObject` is a `SchemaObject` whose only set field is `ref`. -/
inductive SchemaObject where
  | mk (ref : Option String)
       (enumVals : Option (List Lit))
       (allOf : Option (List SchemaObject))
       (oneOf : Option (List SchemaObject))
       (anyOf : Option (List SchemaObject))
       (type : Option String)
       (items : Option SchemaObject)
       (properties : Option (List (String × SchemaObject)))
       (required : Option (List String))
       (nullable : Bool)
       (description : Option String)

def SchemaObject.ref : SchemaObject → Option String
  | .mk r _ _ _ _ _ _ _ _ _ _ => r

def SchemaObject.enumVals : SchemaObject → Option (List Lit)
  | .mk _ e _ _ _ _ _ _ _ _ _ => e

def SchemaObject.allOf : SchemaObject → Option (List SchemaObject)
  | .mk _ _ a _ _ _ _ _ _ _ _ => a

def SchemaObject.oneOf : SchemaObject → Option (List SchemaObject)
  | .mk _ _ _ o _ _ _ _ _ _ _ => o

def SchemaObject.anyOf : SchemaObject → Option (List SchemaObject)
  | .mk _ _ _ _ a _ _ _ _ _ _ => a

def SchemaObject.type : SchemaObject → Option String
  | .mk _ _ _ _ _ t _ _ _ _ _ => t

def SchemaObject.items : SchemaObject → Option SchemaObject
  | .mk _ _ _ _ _ _ i _ _ _ _ => i

def SchemaObject.properties : SchemaObject → Option (List (String × SchemaObject))
  | .mk _ _ _ _ _ _ _ p _ _ _ => p

def SchemaObject.required : SchemaObject → Option (List String)
  | .mk _ _ _ _ _ _ _ _ r _ _ => r

def SchemaObject.nullable : SchemaObject → Bool
  | .mk _ _ _ _ _ _ _ _ _ n _ => n

def SchemaObject.description : SchemaObject → Option String
  | .mk _ _ _ _ _ _ _ _ _ _ d => d

/-- A schema node with no field set; concrete examples override fields. -/
def blankSchema : SchemaObject :=
  .mk none none none none none none none none none false none

/-- A parameter declaration. `inLoc` models the OpenAPI field `in`
(a Lean keyword). A missing `required` is falsy in JS, hence `Bool`. -/
structure ParameterObject where
  name : String
  inLoc : String
  required : Bool
  description : Option String
  schema : Option SchemaObject

/-- One media-type entry of a request body's `content` map. -/
structure MediaTypeObject where
  schema : Option SchemaObject

/-- A request-body declaration. -/
structure RequestBodyObject where
  content : List (String × MediaTypeObject)
  required : Bool

/-- An element of a `parameters:` array: either an inline `ParameterObject`
or a `ReferenceObject` (an object whose only field is `$ref`). -/
inductive ParamOrRef where
  | param (p : ParameterObject)
  | ref (r : String)

/-- An element of a `requestBody:` slot. -/
inductive RequestBodyOrRef where
  | body (b : RequestBodyObject)
  | ref (r : String)

/-- The `components` object as a tree that `resolveReference` walks
part-by-part: interior objects keyed by name, with schema / parameter /
request-body definitions at the leaves. -/
inductive ComponentsNode where
  | obj (fields : List (String × ComponentsNode))
  | sch (s : SchemaObject)
  | par (p : ParameterObject)
  | reqBody (r : RequestBodyObject)

/-- Single-character split with the behaviour of JS `"...".split("/")`:
`""` yields `[""]`, separators at either end yield empty segments. -/
def splitOnChar (sep : Char) : List Char → List (List Char)
  | [] => [[]]
  | c :: rest =>
    if c = sep then [] :: splitOnChar sep rest
    else
      match splitOnChar sep rest with
      | [] => [[c]]
      | h :: t => (c :: h) :: t

/-- `ref.replace(/^#\/components\//, "")`: drop the anchored prefix when
present, otherwise leave the string unchanged. -/
def dropComponentsRoot (ref : String) : String :=
  if "#/components/".data.isPrefixOf ref.data
  then String.mk (ref.data.drop "#/components/".data.length)
  else ref

/-- `ref.replace(/^#\/components\//, "").split("/")`. -/
def refParts (ref : String) : List String :=
  (splitOnChar '/' (dropComponentsRoot ref).data).map String.mk

/-- Walk the remaining `/`-separated parts through the components tree,
failing like the source (`if (!result) throw ...`) as soon as a part does
not resolve. The TS function returns the final node through an unchecked
cast; callers of this embedding match on the expected leaf kind. -/
def resolveReference (ref : String) (components : ComponentsNode) : Except String ComponentsNode :=
  (refParts ref).foldlM
    (fun result part =>
      match result with
      | .obj fields =>
        match lookupObj fields part with
        | some v => Except.ok v
        | none => Except.error ("Could not resolve reference: " ++ ref)
      | _ => Except.error ("Could not resolve reference: " ++ ref))
    components

/-- `if (schemaObject.nullable) base = base.nullable();` -/
def applyNullable (nullable : Bool) (z : Zod) : Zod :=
  if nullable then .znullable z else z

/-- `if (schemaObject.description) base = base.describe(...)`: the empty
string is falsy in JS, so it does not wrap. -/
def applyDescription (description : Option String) (z : Zod) : Zod :=
  match description with
  | some d => if d = "" then z else .zdescribe d z
  | none => z

mutual

/-- `convertSchemaObjectToZod` of `src/api.ts`: the keyword precedence is the
source's `if` chain — `$ref`, then non-empty `enum`, then `allOf`, `oneOf`,
`anyOf`, then a truthy `type`, and finally the untyped `z.any()` fallback.
`fuel` bounds the recursion depth (the JS recursion is unbounded and would
overflow the stack on a cyclic reference); every recursive call burns one
unit. The empty `allOf` branch models `[].reduce` throwing; a resolved
reference that is not a schema leaf models the unchecked TS cast going wrong. -/
def convertSchemaObjectToZod : Nat → SchemaObject → ComponentsNode → Except String Zod
  | 0, _, _ => .error "recursion depth exhausted"
  | Nat.succ fuel, s, components =>
    match s.ref with
    | some r =>
      match resolveReference r components with
      | .error e => .error e
      | .ok (.sch resolved) => convertSchemaObjectToZod fuel resolved components
      | .ok _ => .error ("resolved reference is not a schema object: " ++ r)
    | none =>
    match s.enumVals with
    | some (e :: es) => .ok (.zenum (e :: es))
    | _ =>
    match s.allOf with
    | some l =>
      match convertSchemaList fuel l components with
      | .error e => .error e
      | .ok [] => .error "reduce of empty array with no initial value"
      | .ok (z :: zs) => .ok (zs.foldl Zod.zintersection z)
    | none =>
    match s.oneOf with
    | some l =>
      match convertSchemaList fuel l components with
      | .error e => .error e
      | .ok zs => .ok (.zunion zs)
    | none =>
    match s.anyOf with
    | some l =>
      match convertSchemaList fuel l components with
      | .error e => .error e
      | .ok zs => .ok (.zunion zs)
    | none =>
    match s.type with
    | some t =>
      if t = "" then .ok .zany
      else
        match
          (match t with
           | "string" => .ok Zod.zstring
           | "number" => .ok Zod.znumber
           | "integer" => .ok Zod.znumber
           | "boolean" => .ok Zod.zboolean
           | "array" =>
             match s.items with
             | none => .error "TypeError: array items are missing"
             | some it =>
               match convertSchemaObjectToZod fuel it components with
               | .error e => .error e
               | .ok ze => .ok (Zod.zarray ze)
           | "object" =>
             match convertProps fuel (s.properties.getD []) (s.required.getD []) components with
             | .error e => .error e
             | .ok shape => .ok (Zod.zobject shape)
           | _ => .ok Zod.zany : Except String Zod)
        with
        | .error e => .error e
        | .ok base => .ok (applyDescription s.description (applyNullable s.nullable base))
    | none => .ok .zany

/-- `schemaObject.allOf.map(s => convertSchemaObjectToZod(s, components))`
and likewise for `oneOf` / `anyOf`: conversions run left to right, the first
thrown error propagates. Walking a list element also burns fuel, keeping the
whole mutual recursion structural on the fuel counter. -/
def convertSchemaList : Nat → List SchemaObject → ComponentsNode → Except String (List Zod)
  | 0, _, _ => .error "recursion depth exhausted"
  | Nat.succ _, [], _ => .ok []
  | Nat.succ fuel, s :: rest, components =>
    match convertSchemaObjectToZod fuel s components with
    | .error e => .error e
    | .ok z =>
      match convertSchemaList fuel rest components with
      | .error e => .error e
      | .ok zs => .ok (z :: zs)

/-- The `type: "object"` branch: convert every property, wrapping those not
listed in `required` with `.optional()`. -/
def convertProps : Nat → List (String × SchemaObject) → List String → ComponentsNode → Except String (List (String × Zod))
  | 0, _, _, _ => .error "recursion depth exhausted"
  | Nat.succ _, [], _, _ => .ok []
  | Nat.succ fuel, (k, prop) :: rest, req, components =>
    match convertSchemaObjectToZod fuel prop components with
    | .error e => .error e
    | .ok zp =>
      match convertProps fuel rest req components with
      | .error e => .error e
      | .ok shape => .ok ((k, if req.contains k then zp else .zoptional zp) :: shape)

end

namespace Api

/-- `convertParameterToZod` of `src/api.ts`: no schema compiles to nothing
(`undefined`); a non-required parameter's validator is wrapped with
`.optional()`. -/
def convertParameterToZod (fuel : Nat) (p : ParameterObject) (components : ComponentsNode) :
    Except String (Option Zod) :=
  match p.schema with
  | none => .ok none
  | some s =>
    match convertSchemaObjectToZod fuel s components with
    | .error e => .error e
    | .ok z => .ok (some (if p.required then z else .zoptional z))

/-- The entry list built inside `convertParametersToZod` before
`Object.fromEntries`: drop the `ReferenceObject`s (`ensureParameterObject`),
convert each remaining parameter left to right, drop those that produced no
validator. -/
def paramEntries (fuel : Nat) (components : ComponentsNode) :
    List ParamOrRef → Except String (List (String × Zod))
  | [] => .ok []
  | .ref _ :: rest => paramEntries fuel components rest
  | .param p :: rest =>
    match convertParameterToZod fuel p components with
    | .error e => .error e
    | .ok z? =>
      match paramEntries fuel components rest with
      | .error e => .error e
      | .ok es =>
        match z? with
        | some z => .ok ((p.name, z) :: es)
        | none => .ok es

/-- `convertParametersToZod` of `src/api.ts`: `undefined` parameter lists
give an empty record, otherwise `Object.fromEntries` of the entry list. -/
def convertParametersToZod (fuel : Nat) (params : Option (List ParamOrRef)) (components : ComponentsNode) :
    Except String (List (String × Zod)) :=
  match params with
  | none => .ok []
  | some ps =>
    match paramEntries fuel components ps with
    | .error e => .error e
    | .ok es => .ok (fromEntries es)

/-- The `.filter` stage of the `pathParameters:` computation: keep inline
parameters located in the path, and references whose resolved target is
located in the path (`resolveReference(...)?.in === "path"`); a resolution
failure propagates as a thrown error, and a resolved leaf that is not a
parameter object has no `in` field, so the strict comparison is false. -/
def pathParamFilter (components : ComponentsNode) :
    List ParamOrRef → Except String (List ParamOrRef)
  | [] => .ok []
  | pr :: rest =>
    match
      (match pr with
       | .param p => .ok (p.inLoc == "path")
       | .ref r =>
         match resolveReference r components with
         | .error e => .error e
         | .ok (.par p) => .ok (p.inLoc == "path")
         | .ok _ => .ok false : Except String Bool)
    with
    | .error e => .error e
    | .ok keep =>
      match pathParamFilter components rest with
      | .error e => .error e
      | .ok kept => .ok (if keep then pr :: kept else kept)

/-- The `.map` stage of the `pathParameters:` computation: an inline
parameter contributes its own name, a reference contributes the resolved
parameter's name (the reference is resolved a second time). -/
def pathParamNames (components : ComponentsNode) :
    List ParamOrRef → Except String (List String)
  | [] => .ok []
  | pr :: rest =>
    match
      (match pr with
       | .param p => .ok p.name
       | .ref r =>
         match resolveReference r components with
         | .error e => .error e
         | .ok (.par p) => .ok p.name
         | .ok _ => .error ("resolved reference is not a parameter object: " ++ r) : Except String String)
    with
    | .error e => .error e
    | .ok n =>
      match pathParamNames components rest with
      | .error e => .error e
      | .ok ns => .ok (n :: ns)

/-- The full `pathParameters:` expression of `generateZodSchema`. -/
def pathParametersOf (mergedParams : List ParamOrRef) (components : ComponentsNode) :
    Except String (List String) :=
  match pathParamFilter components mergedParams with
  | .error e => .error e
  | .ok kept => pathParamNames components kept

/-- `convertRequestBodyToZod` of `src/api.ts`: only the `application/json`
media type is kept; a non-required body's validator is `.optional()`. -/
def convertRequestBodyToZod (fuel : Nat) (requestBody : Option RequestBodyOrRef) (components : ComponentsNode) :
    Except String (Option (List (String × Zod))) :=
  match requestBody with
  | none => .ok none
  | some rb =>
    match
      (match rb with
       | .body b => .ok b
       | .ref r =>
         match resolveReference r components with
         | .error e => .error e
         | .ok (.reqBody b) => .ok b
         | .ok _ => .error ("resolved reference is not a request body: " ++ r) : Except String RequestBodyObject)
    with
    | .error e => .error e
    | .ok actual =>
      match lookupObj actual.content "application/json" with
      | none => .ok none
      | some mto =>
        match mto.schema with
        | none => .ok none
        | some sch =>
          match convertSchemaObjectToZod fuel sch components with
          | .error e => .error e
          | .ok z =>
            .ok (some [("application/json", if actual.required then z else .zoptional z)])

/-- One verb on one path: `summary`, `description`, `parameters`,
`requestBody` and `tags` as the code reads them. -/
structure OperationObject where
  summary : Option String
  description : Option String
  parameters : Option (List ParamOrRef)
  requestBody : Option RequestBodyOrRef
  tags : Option (List String)

/-- A path item: its own `parameters` list plus the verb-indexed operations
(the eight fixed fields `get`, `post`, ... are modelled as a verb-keyed
association list read with `lookupObj`). -/
structure PathItemObject where
  parameters : Option (List ParamOrRef)
  operations : List (String × OperationObject)

/-- The per-operation record `generateZodSchema` stores under
`result[path][method]`. -/
structure OperationSchema where
  summary : Option String
  description : Option String
  pathParameters : List String
  parameters : List (String × Zod)
  requestBody : Option (List (String × Zod))

/-- The body of `generateZodSchema`'s inner loop for one present operation:
spread the path-level and operation-level parameter lists together
(`[...(pathItem.parameters ?? []), ...(operation.parameters ?? [])]`), then
build the record field by field in source order. -/
def compileOperation (fuel : Nat) (components : ComponentsNode)
    (pathItem : PathItemObject) (operation : OperationObject) :
    Except String OperationSchema :=
  let mergedParams := pathItem.parameters.getD [] ++ operation.parameters.getD []
  match pathParametersOf mergedParams components with
  | .error e => .error e
  | .ok pps =>
    match convertParametersToZod fuel (some mergedParams) components with
    | .error e => .error e
    | .ok ps =>
      match convertRequestBodyToZod fuel operation.requestBody components with
      | .error e => .error e
      | .ok rb => .ok ⟨operation.summary, operation.description, pps, ps, rb⟩

/-- The fixed verb iteration order of the compiler. -/
def methods : List String :=
  ["get", "post", "put", "delete", "options", "head", "patch", "trace"]

/-- The parsed OpenAPI document: `paths` plus `components`
(`spec.components ?? {}` is the caller's default). -/
structure OpenAPIObject where
  paths : List (String × PathItemObject)
  components : ComponentsNode

/-- The inner verb loop of `generateZodSchema` for one path. -/
def compilePathItem (fuel : Nat) (components : ComponentsNode) (pathItem : PathItemObject) :
    Except String (List (String × OperationSchema)) :=
  methods.foldlM
    (fun acc method =>
      match lookupObj pathItem.operations method with
      | none => .ok acc
      | some operation =>
        match compileOperation fuel components pathItem operation with
        | .error e => .error e
        | .ok os => .ok (objSet acc method os))
    []

/-- `generateZodSchema` of `src/api.ts`: walk every path, compile every
present verb. -/
def generateZodSchema (fuel : Nat) (spec : OpenAPIObject) :
    Except String (List (String × List (String × OperationSchema))) :=
  spec.paths.foldlM
    (fun acc (pkv : String × PathItemObject) =>
      match compilePathItem fuel spec.components pkv.2 with
      | .error e => .error e
      | .ok entry => .ok (objSet acc pkv.1 entry))
    []

end Api

namespace MergeApi

/-- `convertParameterToZod` of the `mergeParameters` revision: same as the
`Api` one except that a `description` wraps the validator with
`.describe(...)`, and the schema conversion is called without a components
argument, so references resolve against an empty object. -/
def convertParameterToZod (fuel : Nat) (p : ParameterObject) :
    Except String (Option Zod) :=
  match p.schema with
  | none => .ok none
  | some s =>
    match convertSchemaObjectToZod fuel s (.obj []) with
    | .error e => .error e
    | .ok z =>
      .ok (some (applyDescription p.description (if p.required then z else .zoptional z)))

/-- The entry list of this revision's `convertParametersToZod` (same
filter / map / filter chain as `Api.paramEntries`). -/
def paramEntries (fuel : Nat) :
    List ParamOrRef → Except String (List (String × Zod))
  | [] => .ok []
  | .ref _ :: rest => paramEntries fuel rest
  | .param p :: rest =>
    match convertParameterToZod fuel p with
    | .error e => .error e
    | .ok z? =>
      match paramEntries fuel rest with
      | .error e => .error e
      | .ok es =>
        match z? with
        | some z => .ok ((p.name, z) :: es)
        | none => .ok es

/-- `convertParametersToZod` of the `mergeParameters` revision. -/
def convertParametersToZod (fuel : Nat) (params : Option (List ParamOrRef)) :
    Except String (List (String × Zod)) :=
  match params with
  | none => .ok []
  | some ps =>
    match paramEntries fuel ps with
    | .error e => .error e
    | .ok es => .ok (fromEntries es)

/-- The result record of `mergeParameters`. -/
structure MergedResult where
  parameters : List (String × Zod)
  pathParameters : List String
  methodDescriptions : List (String × (Option String × Option String))

/-- The body of `mergeParameters`' inner parameter loop: a name already
present is replaced by `z.union([existing, incoming])`, a fresh name is
inserted as is. -/
def addParam (allParameters : List (String × Zod)) (nz : String × Zod) :
    List (String × Zod) :=
  match lookupObj allParameters nz.1 with
  | some existing => objSet allParameters nz.1 (.zunion [existing, nz.2])
  | none => objSet allParameters nz.1 nz.2

/-- JS `Set.add`: insertion-ordered, duplicates ignored. -/
def addSet (s : List String) (x : String) : List String :=
  if x ∈ s then s else s ++ [x]

/-- One iteration of `mergeParameters`' loop over
`Object.entries(operations)`. -/
def mergeStep (fuel : Nat) (acc : MergedResult) (mop : String × Api.OperationObject) :
    Except String MergedResult :=
  let methodDescriptions := objSet acc.methodDescriptions mop.1 (mop.2.summary, mop.2.description)
  match convertParametersToZod fuel mop.2.parameters with
  | .error e => .error e
  | .ok methodParams =>
    let allParameters := methodParams.foldl addParam acc.parameters
    let methodPathParams := (mop.2.parameters.getD []).filterMap
      (fun pr =>
        match pr with
        | .param p => if p.inLoc == "path" then some p.name else none
        | .ref _ => none)
    let pathParameters := methodPathParams.foldl addSet acc.pathParameters
    .ok ⟨allParameters, pathParameters, methodDescriptions⟩

/-- The `for (const [method, operation] of Object.entries(operations))`
loop as a recursion over the verb-keyed entry list. -/
def mergeLoop (fuel : Nat) :
    MergedResult → List (String × Api.OperationObject) → Except String MergedResult
  | acc, [] => .ok acc
  | acc, mop :: rest =>
    match mergeStep fuel acc mop with
    | .error e => .error e
    | .ok acc' => mergeLoop fuel acc' rest

/-- `mergeParameters`: fold the per-verb compiled parameter maps of one path
into a single map, unioning validators on name collisions. -/
def mergeParameters (fuel : Nat) (operations : List (String × Api.OperationObject)) :
    Except String MergedResult :=
  mergeLoop fuel ⟨[], [], []⟩ operations

end MergeApi

namespace Dispatch

mutual

/-- JS `String(v)` coercion: `null` prints as `"null"` standalone, numbers
and booleans print canonically, arrays join their elements with `","`
(where a `null` element prints as the empty string), plain objects print as
`"[object Object]"`. -/
def jsString : Value → String
  | .vnull => "null"
  | .vbool b => cond b "true" "false"
  | .vnum n => toString n
  | .vstr s => s
  | .varr xs => jsStringElems xs
  | .vobj _ => "[object Object]"

def jsStringElems : List Value → String
  | [] => ""
  | [.vnull] => ""
  | [x] => jsString x
  | .vnull :: y :: xs => "," ++ jsStringElems (y :: xs)
  | x :: y :: xs => jsString x ++ "," ++ jsStringElems (y :: xs)

end

/-- JS truthiness of a JSON value. -/
def jsTruthy : Value → Bool
  | .vnull => false
  | .vbool b => b
  | .vnum n => n != 0
  | .vstr s => s ≠ ""
  | .varr _ => true
  | .vobj _ => true

/-- The characters `encodeURIComponent` leaves unescaped. -/
def uriUnreserved (ch : Char) : Bool :=
  ch.isAlphanum || ch ∈ ['-', '_', '.', '!', '~', '*', Char.ofNat 39, '(', ')']

def hexDigit (n : Nat) : Char :=
  if n < 10 then Char.ofNat (48 + n) else Char.ofNat (55 + n)

def percentEncodeByte (b : UInt8) : String :=
  String.mk ['%', hexDigit (b.toNat / 16), hexDigit (b.toNat % 16)]

def percentEncodeChar (ch : Char) : String :=
  String.join (((String.mk [ch]).toUTF8.toList).map percentEncodeByte)

/-- `encodeURIComponent`: unreserved characters pass through, everything
else is percent-encoded byte-wise in UTF-8. -/
def encodeURIComponent (s : String) : String :=
  String.join (s.data.map (fun ch => if uriUnreserved ch then String.mk [ch] else percentEncodeChar ch))

/-- The characters `URLSearchParams` serialization leaves unescaped
(`application/x-www-form-urlencoded`). -/
def formUnreserved (ch : Char) : Bool :=
  ch.isAlphanum || ch ∈ ['*', '-', '.', '_']

def formEncode (s : String) : String :=
  String.join (s.data.map (fun ch =>
    if formUnreserved ch then String.mk [ch]
    else if ch = ' ' then "+"
    else percentEncodeChar ch))

/-- `URLSearchParams.toString()` over the accumulated `set` calls. -/
def searchParamsToString (ps : List (String × String)) : String :=
  String.intercalate "&" (ps.map (fun kv => formEncode kv.1 ++ "=" ++ formEncode kv.2))

/-- JS `String.prototype.replace` with a string pattern: replace the first
occurrence only; when the pattern does not occur the string is unchanged. -/
def replaceFirstList : List Char → List Char → List Char → List Char
  | [], pat, repl => if pat.isPrefixOf [] then repl else []
  | c :: rest, pat, repl =>
    if pat.isPrefixOf (c :: rest) then repl ++ (c :: rest).drop pat.length
    else c :: replaceFirstList rest pat repl

def replaceFirst (s pat repl : String) : String :=
  String.mk (replaceFirstList s.data pat.data repl.data)

/-- `endpoint.replace(/[^a-zA-Z0-9]/g, "-").substring(0, 40)`. -/
def sanitizeEndpoint (endpoint : String) : String :=
  String.mk ((endpoint.data.map (fun ch => if ch.isAlphanum then ch else '-')).take 40)

/-- JS `Set.add`, shared shape with `MergeApi.addSet`. -/
def addSet (s : List String) (x : String) : List String :=
  if x ∈ s then s else s ++ [x]

/-- The tool-name loop of `buildTools`: a name already taken gets
`` `${toolName}-${toolNames.size}` `` appended, with `size` read before the
`add`; the (possibly suffixed) name is then added to the set and returned in
registration order. -/
def assignGo : List String → List String → List String
  | [], _ => []
  | b :: rest, taken =>
    let name := if b ∈ taken then b ++ "-" ++ toString taken.length else b
    name :: assignGo rest (addSet taken name)

def assignToolNames (bases : List String) : List String :=
  assignGo bases []

/-- Tool names assigned by `buildTools` to the endpoints of the compiled
schema, in iteration order. -/
def buildToolNames (endpoints : List String) : List String :=
  assignToolNames (endpoints.map sanitizeEndpoint)

/-- The per-verb data the dispatch handler reads from the compiled schema
entry (`methodConfig.pathParameters`; `pathParameters?.includes` tolerates
its absence). -/
structure MethodConfig where
  pathParameters : Option (List String)

/-- One registered tool as the handler closure captures it: the endpoint
(path template), the declared verb order `methodNames`, and the per-verb
configs `methodsToUse`. -/
structure ToolEndpoint where
  endpoint : String
  methodNames : List String
  methodsToUse : List (String × MethodConfig)

structure HttpRequest where
  url : String
  method : String

/-- The handler's loose `paramValue != null` test. -/
def valueIsNull : Value → Bool
  | .vnull => true
  | _ => false

/-- One iteration of the handler's parameter loop: a declared path parameter
replaces its `{name}` placeholder (percent-encoded, string-coerced), any
other non-null parameter is `set` on the query string. -/
def interpolateStep (pathParameters : Option (List String))
    (acc : String × List (String × String)) (kv : String × Value) :
    String × List (String × String) :=
  match pathParameters with
  | some pps =>
    if kv.1 ∈ pps then
      (replaceFirst acc.1 ("\x7b" ++ kv.1 ++ "\x7d") (encodeURIComponent (jsString kv.2)),
       acc.2)
    else if valueIsNull kv.2 then acc
    else (acc.1, objSet acc.2 kv.1 (jsString kv.2))
  | none =>
    if valueIsNull kv.2 then acc
    else (acc.1, objSet acc.2 kv.1 (jsString kv.2))

/-- The pre-fetch phase of the dispatch handler of `buildTools`: pick the
verb (`method || methodNames[0]` — the caller's bag is zod-validated, so
`method`, when present, is a string from the verb enumeration), read the
`` `${methodToUse}_params` `` sub-object, interpolate path parameters into
the endpoint and collect the query string, and assemble the request URL.
An unknown verb models the `TypeError` of reading `.pathParameters` off
`undefined`. Note there is no check for `\x7bname\x7d` placeholders left
unresolved: the URL is assembled and the request issued regardless. -/
def buildRequest (baseUrl : String) (tool : ToolEndpoint) (params : List (String × Value)) :
    Except String HttpRequest :=
  let methodToUse : String :=
    match lookupObj params "method" with
    | some v => if jsTruthy v then jsString v else tool.methodNames.headD ""
    | none => tool.methodNames.headD ""
  let methodParams : List (String × Value) :=
    match lookupObj params (methodToUse ++ "_params") with
    | some (.vobj fields) => fields
    | _ => []
  match lookupObj tool.methodsToUse methodToUse with
  | none => .error ("TypeError: no configuration for method " ++ methodToUse)
  | some methodConfig =>
    let ip := methodParams.foldl (interpolateStep methodConfig.pathParameters) (tool.endpoint, [])
    let queryString := searchParamsToString ip.2
    .ok { url := baseUrl ++ ip.1 ++ (if queryString = "" then "" else "?" ++ queryString),
          method := methodToUse }

/-- The upstream HTTP response as the handler observes it. -/
structure HttpResponse where
  ok : Bool
  status : Nat
  body : String
  contentType : Option String

/-- What a successful dispatch returns to the protocol: the body either
tagged as JSON content (the handler re-serializes the parsed JSON before
returning it) or as plain text. -/
inductive DispatchResult where
  | jsonContent (body : String)
  | textContent (body : String)

/-- Substring test used to state theorems about error messages and URLs. -/
def containsSubstr (s sub : String) : Bool :=
  decide (sub.data <:+: s.data)

/-- The response phase of the dispatch handler: a non-`ok` response throws
`` `API Error (${status}): ${errorText}` ``, which the surrounding catch
rethrows as `` `Error calling the API: ${message}` ``; an `ok` response is
returned as JSON or text content depending on the `content-type` header. -/
def handleDispatchResponse (resp : HttpResponse) : Except String DispatchResult :=
  if resp.ok = false then
    .error ("Error calling the API: API Error (" ++ toString resp.status ++ "): " ++ resp.body)
  else
    match resp.contentType with
    | some ct =>
      if containsSubstr ct "application/json" then .ok (.jsonContent resp.body)
      else .ok (.textContent resp.body)
    | none => .ok (.textContent resp.body)

/-- The registry of registered tools, read-only for every dispatch. -/
abbrev Registry : Type := List (String × ToolEndpoint)

/-- One complete dispatch, with the upstream response supplied as an oracle.
The registry is threaded through unchanged — the handler only reads it —
so the returned registry is definitionally the input one. -/
def dispatchCall (registry : Registry) (toolName : String) (baseUrl : String)
    (params : List (String × Value)) (resp : HttpResponse) :
    Except String DispatchResult × Registry :=
  (match lookupObj registry toolName with
   | none => .error ("Tool " ++ toolName ++ " is not registered")
   | some tool =>
     match buildRequest baseUrl tool params with
     | .error e => .error e
     | .ok _req => handleDispatchResponse resp,
   registry)

end Dispatch

/-! ## Association-list infrastructure lemmas -/

theorem lookupObj_objSet_self {α : Type} (m : List (String × α)) (k : String) (v : α) :
    lookupObj (objSet m k v) k = some v := by
  induction m with
  | nil => simp [objSet, lookupObj]
  | cons kv rest ih =>
    obtain ⟨k', v'⟩ := kv
    by_cases h : k' = k <;> simp [objSet, lookupObj, h, ih]

theorem lookupObj_objSet_ne {α : Type} (m : List (String × α)) (k k' : String) (v : α)
    (h : k' ≠ k) : lookupObj (objSet m k v) k' = lookupObj m k' := by
  induction m with
  | nil =>
    simp only [objSet, lookupObj]
    rw [if_neg (fun hh => h hh.symm)]
  | cons kv rest ih =>
    obtain ⟨k0, v0⟩ := kv
    by_cases h0 : k0 = k
    · subst h0
      simp only [objSet, if_pos rfl, lookupObj]
      rw [if_neg (fun hh => h hh.symm), if_neg (fun hh => h hh.symm)]
    · simp only [objSet, if_neg h0, lookupObj]
      by_cases h1 : k0 = k' <;> simp [h1, ih]

/-- The value of the last entry for a key, i.e. the value
`Object.fromEntries` keeps. -/
def lastVal {α : Type} : List (String × α) → String → Option α
  | [], _ => none
  | (k, v) :: rest, n =>
    match lastVal rest n with
    | some w => some w
    | none => if k = n then some v else none

theorem lastVal_append {α : Type} (l₁ l₂ : List (String × α)) (n : String) :
    lastVal (l₁ ++ l₂) n =
      match lastVal l₂ n with
      | some w => some w
      | none => lastVal l₁ n := by
  induction l₁ with
  | nil => cases h2 : lastVal l₂ n <;> simp [lastVal, h2]
  | cons kv rest ih =>
    obtain ⟨k, v⟩ := kv
    simp only [List.cons_append, lastVal]
    rw [List.append_eq, ih]
    cases h2 : lastVal l₂ n <;> cases hr : lastVal rest n <;> simp [lastVal, h2, hr]

theorem lastVal_some_mem {α : Type} (l : List (String × α)) (n : String) (v : α)
    (h : lastVal l n = some v) : (n, v) ∈ l := by
  induction l with
  | nil => simp [lastVal] at h
  | cons kv rest ih =>
    obtain ⟨k, w⟩ := kv
    simp only [lastVal] at h
    cases hrest : lastVal rest n with
    | some w' =>
      rw [hrest] at h
      exact List.mem_cons_of_mem _ (ih (hrest.trans h))
    | none =>
      rw [hrest] at h
      by_cases hk : k = n
      · simp [hk] at h
        subst hk
        subst h
        exact List.mem_cons_self _ _
      · simp [hk] at h

theorem lookupObj_foldl_objSet {α : Type} (l : List (String × α)) (m : List (String × α)) (n : String) :
    lookupObj (l.foldl (fun acc kv => objSet acc kv.1 kv.2) m) n =
      match lastVal l n with
      | some w => some w
      | none => lookupObj m n := by
  induction l generalizing m with
  | nil => simp [lastVal]
  | cons kv rest ih =>
    obtain ⟨k, v⟩ := kv
    simp only [List.foldl_cons, lastVal, ih]
    cases hrest : lastVal rest n with
    | some w => simp
    | none =>
      by_cases hk : k = n
      · subst hk
        simp [lookupObj_objSet_self]
      · simp [hk, lookupObj_objSet_ne _ _ _ _ (fun hh => hk hh.symm)]

theorem lookupObj_fromEntries {α : Type} (l : List (String × α)) (n : String) :
    lookupObj (fromEntries l) n = lastVal l n := by
  unfold fromEntries
  rw [lookupObj_foldl_objSet]
  cases lastVal l n <;> simp [lookupObj]

theorem lookupObj_mem {α : Type} (l : List (String × α)) (n : String) (v : α)
    (h : lookupObj l n = some v) : (n, v) ∈ l := by
  induction l with
  | nil => simp [lookupObj] at h
  | cons kv rest ih =>
    obtain ⟨k, w⟩ := kv
    by_cases hk : k = n
    · subst hk
      simp [lookupObj] at h
      simp [h]
    · simp [lookupObj, hk] at h
      exact List.mem_cons_of_mem _ (ih h)

theorem lookupObj_eq_none_of_not_mem_keys {α : Type} (l : List (String × α)) (n : String)
    (h : ∀ v, (n, v) ∉ l) : lookupObj l n = none := by
  cases hl : lookupObj l n with
  | none => rfl
  | some v => exact absurd (lookupObj_mem l n v hl) (h v)

/-! ## Acceptance propagation through `mergeParameters` (claim C1) -/

theorem accepts_zunion_two (a b : Zod) (v : Value) :
    accepts (.zunion [a, b]) v = (accepts a v || accepts b v) := by
  simp [accepts, acceptsAny]

/-- Some validator registered under `n` accepts `v`. -/
def acceptedIn (n : String) (v : Value) (ap : List (String × Zod)) : Prop :=
  ∃ za, lookupObj ap n = some za ∧ accepts za v = true

theorem addParam_preserves (ap : List (String × Zod)) (nz : String × Zod)
    (n : String) (v : Value) (h : acceptedIn n v ap) :
    acceptedIn n v (MergeApi.addParam ap nz) := by
  obtain ⟨za, hl, ha⟩ := h
  by_cases hk : nz.1 = n
  · subst hk
    unfold MergeApi.addParam
    rw [hl]
    exact ⟨.zunion [za, nz.2], lookupObj_objSet_self _ _ _, by simp [accepts_zunion_two, ha]⟩
  · unfold MergeApi.addParam
    cases lookupObj ap nz.1 <;>
      exact ⟨za, by rw [lookupObj_objSet_ne _ _ _ _ (fun hh => hk hh.symm)]; exact hl, ha⟩

theorem addParam_establishes (ap : List (String × Zod)) (n : String) (z : Zod)
    (v : Value) (ha : accepts z v = true) :
    acceptedIn n v (MergeApi.addParam ap (n, z)) := by
  unfold MergeApi.addParam
  cases hl : lookupObj ap n with
  | none => exact ⟨z, lookupObj_objSet_self _ _ _, ha⟩
  | some e =>
    exact ⟨.zunion [e, z], lookupObj_objSet_self _ _ _, by simp [accepts_zunion_two, ha]⟩

theorem foldl_addParam_preserves (entries : List (String × Zod)) (ap : List (String × Zod))
    (n : String) (v : Value) (h : acceptedIn n v ap) :
    acceptedIn n v (entries.foldl MergeApi.addParam ap) := by
  induction entries generalizing ap with
  | nil => exact h
  | cons nz rest ih => exact ih _ (addParam_preserves ap nz n v h)

theorem foldl_addParam_establishes (entries : List (String × Zod)) (ap : List (String × Zod))
    (n : String) (z : Zod) (v : Value) (hmem : (n, z) ∈ entries) (ha : accepts z v = true) :
    acceptedIn n v (entries.foldl MergeApi.addParam ap) := by
  induction entries generalizing ap with
  | nil => cases hmem
  | cons nz rest ih =>
    rcases List.mem_cons.mp hmem with heq | htail
    · subst heq
      exact foldl_addParam_preserves rest _ n v (addParam_establishes ap n z v ha)
    · exact ih (MergeApi.addParam ap nz) htail

theorem mergeStep_ok_parameters (fuel : Nat) (acc acc' : MergeApi.MergedResult)
    (mop : String × Api.OperationObject)
    (h : MergeApi.mergeStep fuel acc mop = .ok acc') :
    ∃ mp, MergeApi.convertParametersToZod fuel mop.2.parameters = .ok mp ∧
      acc'.parameters = mp.foldl MergeApi.addParam acc.parameters := by
  unfold MergeApi.mergeStep at h
  cases hconv : MergeApi.convertParametersToZod fuel mop.2.parameters with
  | error e => rw [hconv] at h; exact absurd h (by simp)
  | ok mp =>
    rw [hconv] at h
    simp only [Except.ok.injEq] at h
    exact ⟨mp, rfl, by rw [← h]⟩

theorem mergeLoop_preserves (fuel : Nat) (ops : List (String × Api.OperationObject))
    (acc res : MergeApi.MergedResult) (n : String) (v : Value)
    (h : MergeApi.mergeLoop fuel acc ops = .ok res)
    (hacc : acceptedIn n v acc.parameters) : acceptedIn n v res.parameters := by
  induction ops generalizing acc with
  | nil =>
    simp only [MergeApi.mergeLoop, Except.ok.injEq] at h
    rw [← h]
    exact hacc
  | cons mop rest ih =>
    simp only [MergeApi.mergeLoop] at h
    cases hstep : MergeApi.mergeStep fuel acc mop with
    | error e => rw [hstep] at h; exact absurd h (by simp)
    | ok acc' =>
      rw [hstep] at h
      obtain ⟨mp, _, hpar⟩ := mergeStep_ok_parameters fuel acc acc' mop hstep
      exact ih acc' h (hpar ▸ foldl_addParam_preserves mp acc.parameters n v hacc)

theorem mergeLoop_establishes (fuel : Nat) (ops : List (String × Api.OperationObject))
    (acc res : MergeApi.MergedResult) (m : String) (op : Api.OperationObject)
    (mp : List (String × Zod)) (n : String) (z : Zod) (v : Value)
    (hmem : (m, op) ∈ ops)
    (h : MergeApi.mergeLoop fuel acc ops = .ok res)
    (hconv : MergeApi.convertParametersToZod fuel op.parameters = .ok mp)
    (hz : (n, z) ∈ mp) (ha : accepts z v = true) :
    acceptedIn n v res.parameters := by
  induction ops generalizing acc with
  | nil => cases hmem
  | cons mop rest ih =>
    simp only [MergeApi.mergeLoop] at h
    cases hstep : MergeApi.mergeStep fuel acc mop with
    | error e => rw [hstep] at h; exact absurd h (by simp)
    | ok acc' =>
      rw [hstep] at h
      rcases List.mem_cons.mp hmem with heq | htail
      · obtain ⟨m0, op0⟩ := mop
        injection heq with h1 h2
        subst h2
        obtain ⟨mp', hconv', hpar⟩ := mergeStep_ok_parameters fuel acc acc' (m0, op) hstep
        have hmp : mp' = mp := by
          simp only at hconv'
          rw [hconv] at hconv'
          exact (Except.ok.injEq _ _).mp hconv'.symm
        subst hmp
        exact mergeLoop_preserves fuel rest acc' res n v h
          (hpar ▸ foldl_addParam_establishes mp' acc.parameters n z v hz ha)
      · exact ih acc' htail h


/-- C1. In `mergeParameters`, a parameter name shared by several verbs gets
the union of the verbs' validators: any value accepted by the validator one
verb's compiled parameter map assigns to the name is accepted by the merged
per-path validator for that name. -/
theorem mergeParameters_union_accepts (fuel : Nat)
    (ops : List (String × Api.OperationObject)) (res : MergeApi.MergedResult)
    (m : String) (op : Api.OperationObject) (mp : List (String × Zod))
    (n : String) (z : Zod) (v : Value)
    (hmerge : MergeApi.mergeParameters fuel ops = .ok res)
    (hop : (m, op) ∈ ops)
    (hmp : MergeApi.convertParametersToZod fuel op.parameters = .ok mp)
    (hz : lookupObj mp n = some z)
    (hacc : accepts z v = true) :
    ∃ zm, lookupObj res.parameters n = some zm ∧ accepts zm v = true :=
  mergeLoop_establishes fuel ops ⟨[], [], []⟩ res m op mp n z v hop hmerge hmp
    (lookupObj_mem mp n z hz) hacc

/-- `{ type: "number" }`. -/
def numberSchema : SchemaObject :=
  .mk none none none none none (some "number") none none none false none

/-- `{ type: "string" }`. -/
def stringSchema : SchemaObject :=
  .mk none none none none none (some "string") none none none false none

/-- `GET`'s declaration `limit: number` (required, in the query). -/
def limitNumberParam : ParameterObject := ⟨"limit", "query", true, none, some numberSchema⟩

/-- `POST`'s declaration `limit: string` (required, in the query). -/
def limitStringParam : ParameterObject := ⟨"limit", "query", true, none, some stringSchema⟩

def limitGetOp : Api.OperationObject := ⟨none, none, some [.param limitNumberParam], none, none⟩

def limitPostOp : Api.OperationObject := ⟨none, none, some [.param limitStringParam], none, none⟩

/-- What `mergeParameters` computes for the two-verb path: the `limit`
validator is `z.union([z.number(), z.string()])`. -/
def limitMergedResult : MergeApi.MergedResult :=
  ⟨[("limit", .zunion [.znumber, .zstring])], [], [("get", (none, none)), ("post", (none, none))]⟩

/-- C1 witness: merging `GET limit: number` with `POST limit: string` yields
a `limit` validator accepting both the number `7` and the string `"x"`. -/
theorem mergeParameters_union_accepts_witness :
    (∃ zm, lookupObj limitMergedResult.parameters "limit" = some zm ∧
       accepts zm (.vnum 7) = true) ∧
    (∃ zm, lookupObj limitMergedResult.parameters "limit" = some zm ∧
       accepts zm (.vstr "x") = true) :=
  ⟨mergeParameters_union_accepts 1 [("get", limitGetOp), ("post", limitPostOp)]
     limitMergedResult "get" limitGetOp [("limit", .znumber)] "limit" .znumber (.vnum 7)
     rfl (List.mem_cons_self _ _) rfl rfl (by simp [accepts]),
   mergeParameters_union_accepts 1 [("get", limitGetOp), ("post", limitPostOp)]
     limitMergedResult "post" limitPostOp [("limit", .zstring)] "limit" .zstring (.vstr "x")
     rfl (by simp) rfl rfl (by simp [accepts])⟩

/-! ## Reference chains (claim C3) -/

/-- A `$ref` chain of length `d` from `s` to the terminal (non-`$ref`)
schema `t`: each link's `$ref` resolves in the components tree to a schema
leaf carrying the next link. -/
def refChainTo : Nat → SchemaObject → ComponentsNode → SchemaObject → Prop
  | 0, s, _, t => s = t ∧ t.ref = none
  | Nat.succ d, s, c, t =>
    ∃ r s', s.ref = some r ∧ resolveReference r c = .ok (.sch s') ∧ refChainTo d s' c t

theorem refChain_convert_eq : ∀ (d fuel : Nat) (s t : SchemaObject) (c : ComponentsNode),
    refChainTo d s c t →
    convertSchemaObjectToZod (fuel + d) s c = convertSchemaObjectToZod fuel t c := by
  intro d
  induction d with
  | zero =>
    intro fuel s t c h
    obtain ⟨hst, _⟩ := h
    rw [hst, Nat.add_zero]
  | succ d ih =>
    intro fuel s t c h
    obtain ⟨r, s', hr, hres, hchain⟩ := h
    show convertSchemaObjectToZod (Nat.succ (fuel + d)) s c = _
    simp only [convertSchemaObjectToZod, hr, hres]
    exact ih fuel s' t c hchain

/-- C3. A bounded `$ref` chain ending at a terminal schema converts, with
enough fuel, to exactly what the terminal schema converts to at the point of
use: the results are equal, and in particular when the inlined terminal
converts successfully the chained conversion terminates with a validator
accepting exactly the same values. -/
theorem refChain_convert_inline_equiv (d fuel : Nat) (s t : SchemaObject) (c : ComponentsNode)
    (h : refChainTo d s c t) :
    convertSchemaObjectToZod (fuel + d) s c = convertSchemaObjectToZod fuel t c ∧
    ∀ z, convertSchemaObjectToZod fuel t c = .ok z →
      ∃ z', convertSchemaObjectToZod (fuel + d) s c = .ok z' ∧ ∀ v, accepts z' v = accepts z v :=
  ⟨refChain_convert_eq d fuel s t c h,
   fun z hz => ⟨z, (refChain_convert_eq d fuel s t c h).trans hz, fun _ => rfl⟩⟩

/-- `components.schemas = { A: { $ref: B }, B: { type: string } }`. -/
def chainComponents : ComponentsNode :=
  .obj [("schemas", .obj [
    ("A", .sch (.mk (some "#/components/schemas/B") none none none none none none none none false none)),
    ("B", .sch stringSchema)])]

/-- `{ $ref: "#/components/schemas/A" }`. -/
def chainStart : SchemaObject :=
  .mk (some "#/components/schemas/A") none none none none none none none none false none

/-- `{ $ref: "#/components/schemas/B" }`. -/
def chainMid : SchemaObject :=
  .mk (some "#/components/schemas/B") none none none none none none none none false none

/-- C3 witness: the depth-2 chain `A → B → { type: string }` converts to the
same `z.string()` the inlined terminal yields. -/
theorem refChain_convert_inline_equiv_witness :
    refChainTo 2 chainStart chainComponents stringSchema ∧
    convertSchemaObjectToZod 3 chainStart chainComponents = .ok .zstring ∧
    convertSchemaObjectToZod 1 stringSchema chainComponents = .ok .zstring := by
  have hchain : refChainTo 2 chainStart chainComponents stringSchema :=
    ⟨"#/components/schemas/A", chainMid, rfl, by rfl,
     "#/components/schemas/B", stringSchema, rfl, by rfl, rfl, rfl⟩
  exact ⟨hchain,
    ((refChain_convert_inline_equiv 2 1 chainStart stringSchema chainComponents hchain).1).trans
      (by rfl),
    by rfl⟩

/-! ## Keyword precedence of the schema converter (claims C5, C7, C10) -/

/-- The `enum` keyword does not fire: absent, or present but empty
(`schemaObject.enum && schemaObject.enum.length > 0` is false). -/
def enumInactive (s : SchemaObject) : Prop :=
  s.enumVals = none ∨ s.enumVals = some []

theorem convert_ref_branch (fuel : Nat) (c : ComponentsNode) (s : SchemaObject)
    (r : String) (s' : SchemaObject)
    (hr : s.ref = some r) (hres : resolveReference r c = .ok (.sch s')) :
    convertSchemaObjectToZod (fuel + 1) s c = convertSchemaObjectToZod fuel s' c := by
  rcases s with ⟨r0, e0, a0, o0, an0, t0, i0, p0, q0, nb0, d0⟩
  simp only [SchemaObject.ref] at hr
  subst hr
  show convertSchemaObjectToZod (Nat.succ fuel) _ c = _
  simp only [convertSchemaObjectToZod, SchemaObject.ref, hres]

theorem convert_enum_branch (fuel : Nat) (c : ComponentsNode) (s : SchemaObject)
    (e : Lit) (es : List Lit)
    (hr : s.ref = none) (he : s.enumVals = some (e :: es)) :
    convertSchemaObjectToZod (fuel + 1) s c = .ok (.zenum (e :: es)) := by
  rcases s with ⟨r0, e0, a0, o0, an0, t0, i0, p0, q0, nb0, d0⟩
  simp only [SchemaObject.ref] at hr
  simp only [SchemaObject.enumVals] at he
  subst hr
  subst he
  show convertSchemaObjectToZod (Nat.succ fuel) _ c = _
  simp only [convertSchemaObjectToZod, SchemaObject.ref, SchemaObject.enumVals]

theorem convert_allOf_branch (fuel : Nat) (c : ComponentsNode) (s : SchemaObject)
    (l : List SchemaObject) (z : Zod) (zs : List Zod)
    (hr : s.ref = none) (he : enumInactive s) (ha : s.allOf = some l)
    (hl : convertSchemaList fuel l c = .ok (z :: zs)) :
    convertSchemaObjectToZod (fuel + 1) s c = .ok (zs.foldl Zod.zintersection z) := by
  rcases s with ⟨r0, e0, a0, o0, an0, t0, i0, p0, q0, nb0, d0⟩
  simp only [SchemaObject.ref] at hr
  simp only [SchemaObject.allOf] at ha
  subst hr
  subst ha
  show convertSchemaObjectToZod (Nat.succ fuel) _ c = _
  rcases he with he | he <;>
    (simp only [SchemaObject.enumVals] at he; subst he;
     simp only [convertSchemaObjectToZod, SchemaObject.ref, SchemaObject.enumVals,
       SchemaObject.allOf, hl])

theorem convert_oneOf_branch (fuel : Nat) (c : ComponentsNode) (s : SchemaObject)
    (l : List SchemaObject) (zs : List Zod)
    (hr : s.ref = none) (he : enumInactive s) (ha : s.allOf = none)
    (ho : s.oneOf = some l) (hl : convertSchemaList fuel l c = .ok zs) :
    convertSchemaObjectToZod (fuel + 1) s c = .ok (.zunion zs) := by
  rcases s with ⟨r0, e0, a0, o0, an0, t0, i0, p0, q0, nb0, d0⟩
  simp only [SchemaObject.ref] at hr
  simp only [SchemaObject.allOf] at ha
  simp only [SchemaObject.oneOf] at ho
  subst hr
  subst ha
  subst ho
  show convertSchemaObjectToZod (Nat.succ fuel) _ c = _
  rcases he with he | he <;>
    (simp only [SchemaObject.enumVals] at he; subst he;
     simp only [convertSchemaObjectToZod, SchemaObject.ref, SchemaObject.enumVals,
       SchemaObject.allOf, SchemaObject.oneOf, hl])

theorem convert_anyOf_branch (fuel : Nat) (c : ComponentsNode) (s : SchemaObject)
    (l : List SchemaObject) (zs : List Zod)
    (hr : s.ref = none) (he : enumInactive s) (ha : s.allOf = none)
    (ho : s.oneOf = none) (han : s.anyOf = some l)
    (hl : convertSchemaList fuel l c = .ok zs) :
    convertSchemaObjectToZod (fuel + 1) s c = .ok (.zunion zs) := by
  rcases s with ⟨r0, e0, a0, o0, an0, t0, i0, p0, q0, nb0, d0⟩
  simp only [SchemaObject.ref] at hr
  simp only [SchemaObject.allOf] at ha
  simp only [SchemaObject.oneOf] at ho
  simp only [SchemaObject.anyOf] at han
  subst hr
  subst ha
  subst ho
  subst han
  show convertSchemaObjectToZod (Nat.succ fuel) _ c = _
  rcases he with he | he <;>
    (simp only [SchemaObject.enumVals] at he; subst he;
     simp only [convertSchemaObjectToZod, SchemaObject.ref, SchemaObject.enumVals,
       SchemaObject.allOf, SchemaObject.oneOf, SchemaObject.anyOf, hl])

theorem convert_type_branch_shape (fuel : Nat) (c : ComponentsNode) (s : SchemaObject)
    (t : String) (z : Zod)
    (hr : s.ref = none) (he : enumInactive s) (ha : s.allOf = none)
    (ho : s.oneOf = none) (han : s.anyOf = none) (ht : s.type = some t) (hne : t ≠ "")
    (hok : convertSchemaObjectToZod (fuel + 1) s c = .ok z) :
    ∃ base, z = applyDescription s.description (applyNullable s.nullable base) := by
  rcases s with ⟨r0, e0, a0, o0, an0, t0, i0, p0, q0, nb0, d0⟩
  simp only [SchemaObject.ref] at hr
  simp only [SchemaObject.allOf] at ha
  simp only [SchemaObject.oneOf] at ho
  simp only [SchemaObject.anyOf] at han
  simp only [SchemaObject.type] at ht
  subst hr
  subst ha
  subst ho
  subst han
  subst ht
  simp only [SchemaObject.nullable, SchemaObject.description]
  rcases he with he | he <;> (simp only [SchemaObject.enumVals] at he; subst he) <;>
    simp only [convertSchemaObjectToZod, SchemaObject.ref, SchemaObject.enumVals,
      SchemaObject.allOf, SchemaObject.oneOf, SchemaObject.anyOf, SchemaObject.type,
      SchemaObject.items, SchemaObject.properties, SchemaObject.required,
      SchemaObject.nullable, SchemaObject.description, if_neg hne] at hok <;>
    split at hok
  all_goals cases hok
  all_goals exact ⟨_, rfl⟩

theorem convert_fallback_branch (fuel : Nat) (c : ComponentsNode) (s : SchemaObject)
    (hr : s.ref = none) (he : enumInactive s) (ha : s.allOf = none)
    (ho : s.oneOf = none) (han : s.anyOf = none)
    (ht : s.type = none ∨ s.type = some "") :
    convertSchemaObjectToZod (fuel + 1) s c = .ok .zany := by
  rcases s with ⟨r0, e0, a0, o0, an0, t0, i0, p0, q0, nb0, d0⟩
  simp only [SchemaObject.ref] at hr
  simp only [SchemaObject.allOf] at ha
  simp only [SchemaObject.oneOf] at ho
  simp only [SchemaObject.anyOf] at han
  subst hr
  subst ha
  subst ho
  subst han
  show convertSchemaObjectToZod (Nat.succ fuel) _ c = _
  rcases he with he | he <;> (simp only [SchemaObject.enumVals] at he; subst he) <;>
    rcases ht with ht | ht <;> (simp only [SchemaObject.type] at ht; subst ht) <;>
      simp [convertSchemaObjectToZod, SchemaObject.ref, SchemaObject.enumVals,
        SchemaObject.allOf, SchemaObject.oneOf, SchemaObject.anyOf, SchemaObject.type]

theorem convert_int_number_eq (fuel : Nat) (c : ComponentsNode)
    (en : Option (List Lit)) (ao oo an : Option (List SchemaObject))
    (it : Option SchemaObject) (pr : Option (List (String × SchemaObject)))
    (rq : Option (List String)) (nb : Bool) (ds : Option String) :
    convertSchemaObjectToZod (fuel + 1) (.mk none en ao oo an (some "integer") it pr rq nb ds) c =
    convertSchemaObjectToZod (fuel + 1) (.mk none en ao oo an (some "number") it pr rq nb ds) c :=
  rfl

/-- C5. The schema converter applies its variant rules in the fixed
precedence order `$ref` > non-empty `enum` > `allOf` > `oneOf` > `anyOf` >
truthy `type` > untyped `z.any()` fallback — whenever several keywords are
present on one node, the highest-precedence one dictates the result — and
`integer` and `number` types compile to the same general numeric validator. -/
theorem convertSchema_precedence (fuel : Nat) (c : ComponentsNode) :
    (∀ s r s', s.ref = some r → resolveReference r c = .ok (.sch s') →
       convertSchemaObjectToZod (fuel + 1) s c = convertSchemaObjectToZod fuel s' c) ∧
    (∀ s e es, s.ref = none → s.enumVals = some (e :: es) →
       convertSchemaObjectToZod (fuel + 1) s c = .ok (.zenum (e :: es))) ∧
    (∀ s l z zs, s.ref = none → enumInactive s → s.allOf = some l →
       convertSchemaList fuel l c = .ok (z :: zs) →
       convertSchemaObjectToZod (fuel + 1) s c = .ok (zs.foldl Zod.zintersection z)) ∧
    (∀ s l zs, s.ref = none → enumInactive s → s.allOf = none → s.oneOf = some l →
       convertSchemaList fuel l c = .ok zs →
       convertSchemaObjectToZod (fuel + 1) s c = .ok (.zunion zs)) ∧
    (∀ s l zs, s.ref = none → enumInactive s → s.allOf = none → s.oneOf = none →
       s.anyOf = some l → convertSchemaList fuel l c = .ok zs →
       convertSchemaObjectToZod (fuel + 1) s c = .ok (.zunion zs)) ∧
    (∀ en ao oo an it pr rq nb ds,
       convertSchemaObjectToZod (fuel + 1) (.mk none en ao oo an (some "integer") it pr rq nb ds) c =
       convertSchemaObjectToZod (fuel + 1) (.mk none en ao oo an (some "number") it pr rq nb ds) c) ∧
    (∀ s, s.ref = none → enumInactive s → s.allOf = none → s.oneOf = none → s.anyOf = none →
       (s.type = none ∨ s.type = some "") →
       convertSchemaObjectToZod (fuel + 1) s c = .ok .zany) :=
  ⟨fun s r s' => convert_ref_branch fuel c s r s',
   fun s e es => convert_enum_branch fuel c s e es,
   fun s l z zs => convert_allOf_branch fuel c s l z zs,
   fun s l zs => convert_oneOf_branch fuel c s l zs,
   fun s l zs => convert_anyOf_branch fuel c s l zs,
   fun en ao oo an it pr rq nb ds => convert_int_number_eq fuel c en ao oo an it pr rq nb ds,
   fun s => convert_fallback_branch fuel c s⟩

/-- A node that carries `enum`, `allOf`, `oneOf`, `anyOf`, `type`,
`nullable` and `description` at once. -/
def crowdedSchema : SchemaObject :=
  .mk none (some [.lstr "a"]) (some [numberSchema]) (some [stringSchema]) (some [numberSchema])
    (some "boolean") none none none true (some "d")

/-- C5 witness: on the crowded node the non-empty `enum` — the
highest-precedence keyword present — dictates the validator, and a bare
`integer` node compiles to the same numeric validator as a bare `number`
node. -/
theorem convertSchema_precedence_witness :
    convertSchemaObjectToZod 1 crowdedSchema (.obj []) = .ok (.zenum [.lstr "a"]) ∧
    convertSchemaObjectToZod 1
        (.mk none none none none none (some "integer") none none none false none) (.obj []) =
      convertSchemaObjectToZod 1
        (.mk none none none none none (some "number") none none none false none) (.obj []) :=
  ⟨(convertSchema_precedence 0 (.obj [])).2.1 crowdedSchema (.lstr "a") [] rfl rfl,
   (convertSchema_precedence 0 (.obj [])).2.2.2.2.2.1 none none none none none none none false none⟩

/-- `{ enum: ["a"], nullable: true }`. -/
def nullableEnumSchema : SchemaObject :=
  .mk none (some [.lstr "a"]) none none none none none none none true none

/-- `{ type: "number", nullable: true }`. -/
def nullableNumberSchema : SchemaObject :=
  .mk none none none none none (some "number") none none none true none

/-- C7 counterexample: the converter leaves `nullable: true` unapplied
outside the `type` branch — the enum node `{ enum: ["a"], nullable: true }`
compiles to a bare `z.enum(["a"])` whose validator rejects `null`, refuting
the claim that every variant carrying `nullable: true` accepts `null`. -/
theorem nullable_enum_counterexample :
    convertSchemaObjectToZod 1 nullableEnumSchema (.obj []) = .ok (.zenum [.lstr "a"]) ∧
    accepts (.zenum [.lstr "a"]) .vnull = false :=
  ⟨rfl, by simp [accepts]⟩

/-- C7 (amended). `nullable: true` is honoured only inside the `type`
branch: there the compiled validator is the `.nullable()` wrapper, which
accepts `null` plus exactly the values the underlying validator accepts;
on the `enum` branch (and likewise the other keyword branches, which return
before reaching the modifier code) the flag is ignored and `null` is
rejected. -/
theorem nullable_type_branch_only (fuel : Nat) (c : ComponentsNode) :
    (∀ s t z, s.ref = none → enumInactive s → s.allOf = none → s.oneOf = none →
       s.anyOf = none → s.type = some t → t ≠ "" → s.nullable = true →
       s.description = none →
       convertSchemaObjectToZod (fuel + 1) s c = .ok z →
       ∃ base, z = .znullable base ∧
         ∀ v, accepts z v = true ↔ (v = .vnull ∨ accepts base v = true)) ∧
    (∀ s e es, s.ref = none → s.enumVals = some (e :: es) → s.nullable = true →
       convertSchemaObjectToZod (fuel + 1) s c = .ok (.zenum (e :: es)) ∧
       accepts (.zenum (e :: es)) .vnull = false) := by
  constructor
  · intro s t z hr he ha ho han ht hne hnb hd hok
    obtain ⟨base, hbase⟩ :=
      convert_type_branch_shape fuel c s t z hr he ha ho han ht hne hok
    rw [hnb, hd] at hbase
    refine ⟨base, hbase, ?_⟩
    intro v
    subst hbase
    cases v <;> simp [accepts, applyDescription, applyNullable]
  · intro s e es hr he hnb
    exact ⟨convert_enum_branch fuel c s e es hr he, by simp [accepts]⟩

/-- C7 witness: `{ type: "number", nullable: true }` compiles to
`z.number().nullable()`, which accepts `null` and the numbers and nothing
else; `{ enum: ["a"], nullable: true }` compiles to a validator that still
rejects `null`. -/
theorem nullable_type_branch_only_witness :
    (∃ base, Zod.znullable .znumber = .znullable base ∧
       ∀ v, accepts (Zod.znullable .znumber) v = true ↔ (v = .vnull ∨ accepts base v = true)) ∧
    (convertSchemaObjectToZod 1 nullableEnumSchema (.obj []) = .ok (.zenum [.lstr "a"]) ∧
       accepts (.zenum [.lstr "a"]) .vnull = false) :=
  ⟨(nullable_type_branch_only 0 (.obj [])).1 nullableNumberSchema "number" (.znullable .znumber)
     rfl (Or.inl rfl) rfl rfl rfl rfl (by decide) rfl rfl rfl,
   (nullable_type_branch_only 0 (.obj [])).2 nullableEnumSchema (.lstr "a") [] rfl rfl rfl⟩

/-- `{ enum: [1, 2] }` — a numeric enum. -/
def numericEnumSchema : SchemaObject :=
  .mk none (some [.lnum 1, .lnum 2]) none none none none none none none false none

/-- C10. The enum branch hands the literal list to `z.enum` unchanged, and
`z.enum` only ever matches string inputs against the stored values: an
all-string enum compiles to a validator accepting exactly those strings,
while an enum of numeric literals yields a validator that accepts nothing —
in particular not the numbers themselves as literals of their own type. -/
theorem enum_string_literal_validator (fuel : Nat) (c : ComponentsNode) :
    (∀ s e es, s.ref = none → s.enumVals = some (e :: es) →
       convertSchemaObjectToZod (fuel + 1) s c = .ok (.zenum (e :: es))) ∧
    (∀ (values : List String) (v : Value),
       accepts (.zenum (values.map .lstr)) v = true ↔ ∃ x ∈ values, v = .vstr x) ∧
    (convertSchemaObjectToZod (fuel + 1) numericEnumSchema c = .ok (.zenum [.lnum 1, .lnum 2]) ∧
     ∀ v, accepts (.zenum [.lnum 1, .lnum 2]) v = false) := by
  refine ⟨fun s e es => convert_enum_branch fuel c s e es, ?_, ?_, ?_⟩
  · intro values v
    cases v <;> simp [accepts]
  · exact convert_enum_branch fuel c numericEnumSchema (.lnum 1) [.lnum 2] rfl rfl
  · intro v
    cases v <;> simp [accepts]

/-- C10 witness: the enum `["red", "blue"]` compiles to a validator that
accepts `"red"` and rejects the non-member `"green"`, and the numeric enum
`[1, 2]` compiles to a validator rejecting the number `1`. -/
theorem enum_string_literal_validator_witness :
    (accepts (.zenum ([("red" : String), "blue"].map .lstr)) (.vstr "red") = true ↔
       ∃ x ∈ [("red" : String), "blue"], Value.vstr "red" = .vstr x) ∧
    (accepts (.zenum ([("red" : String), "blue"].map .lstr)) (.vstr "green") = true ↔
       ∃ x ∈ [("red" : String), "blue"], Value.vstr "green" = .vstr x) ∧
    accepts (.zenum [.lnum 1, .lnum 2]) (.vnum 1) = false :=
  ⟨(enum_string_literal_validator 0 (.obj [])).2.1 ["red", "blue"] (.vstr "red"),
   (enum_string_literal_validator 0 (.obj [])).2.1 ["red", "blue"] (.vstr "green"),
   (enum_string_literal_validator 0 (.obj [])).2.2.2 (.vnum 1)⟩

/-! ## Layer merging and reference-parameter filtering (claims C6, C9) -/

theorem paramEntries_append (fuel : Nat) (c : ComponentsNode)
    (l1 l2 : List ParamOrRef) (e1 e2 : List (String × Zod))
    (h1 : Api.paramEntries fuel c l1 = .ok e1) (h2 : Api.paramEntries fuel c l2 = .ok e2) :
    Api.paramEntries fuel c (l1 ++ l2) = .ok (e1 ++ e2) := by
  induction l1 generalizing e1 with
  | nil =>
    simp only [Api.paramEntries, Except.ok.injEq] at h1
    subst h1
    simpa using h2
  | cons pr rest ih =>
    cases pr with
    | ref r =>
      simp only [List.cons_append, Api.paramEntries] at h1 ⊢
      exact ih e1 h1
    | param p =>
      cases hc : Api.convertParameterToZod fuel p c with
      | error e => simp [Api.paramEntries, hc] at h1
      | ok z? =>
        cases hres : Api.paramEntries fuel c rest with
        | error e => simp [Api.paramEntries, hc, hres] at h1
        | ok es =>
          cases z? with
          | some z =>
            simp only [Api.paramEntries, hc, hres, Except.ok.injEq] at h1
            subst h1
            simp [List.cons_append, Api.paramEntries, hc, ih es hres]
          | none =>
            simp only [Api.paramEntries, hc, hres, Except.ok.injEq] at h1
            subst h1
            simp [List.cons_append, Api.paramEntries, hc, ih es hres]

theorem paramEntries_keys (fuel : Nat) (c : ComponentsNode) :
    ∀ (ps : List ParamOrRef) (es : List (String × Zod)),
    Api.paramEntries fuel c ps = .ok es →
    ∀ kv, kv ∈ es → ∃ q, ParamOrRef.param q ∈ ps ∧ q.name = kv.1 := by
  intro ps
  induction ps with
  | nil =>
    intro es h kv hkv
    simp only [Api.paramEntries, Except.ok.injEq] at h
    subst h
    cases hkv
  | cons pr rest ih =>
    intro es h kv hkv
    cases pr with
    | ref r =>
      simp only [Api.paramEntries] at h
      obtain ⟨q, hq, hn⟩ := ih es h kv hkv
      exact ⟨q, List.mem_cons_of_mem _ hq, hn⟩
    | param p =>
      cases hc : Api.convertParameterToZod fuel p c with
      | error e => simp [Api.paramEntries, hc] at h
      | ok z? =>
        cases hres : Api.paramEntries fuel c rest with
        | error e => simp [Api.paramEntries, hc, hres] at h
        | ok es0 =>
          cases z? with
          | some z =>
            simp only [Api.paramEntries, hc, hres, Except.ok.injEq] at h
            subst h
            rcases List.mem_cons.mp hkv with heq | htail
            · subst heq
              exact ⟨p, List.mem_cons_self _ _, rfl⟩
            · obtain ⟨q, hq, hn⟩ := ih es0 hres kv htail
              exact ⟨q, List.mem_cons_of_mem _ hq, hn⟩
          | none =>
            simp only [Api.paramEntries, hc, hres, Except.ok.injEq] at h
            subst h
            obtain ⟨q, hq, hn⟩ := ih es0 hres kv hkv
            exact ⟨q, List.mem_cons_of_mem _ hq, hn⟩

theorem compileOperation_ok (fuel : Nat) (c : ComponentsNode)
    (pi : Api.PathItemObject) (op : Api.OperationObject) (os : Api.OperationSchema)
    (h : Api.compileOperation fuel c pi op = .ok os) :
    ∃ pps E,
      Api.pathParametersOf (pi.parameters.getD [] ++ op.parameters.getD []) c = .ok pps ∧
      Api.paramEntries fuel c (pi.parameters.getD [] ++ op.parameters.getD []) = .ok E ∧
      os.pathParameters = pps ∧ os.parameters = fromEntries E := by
  cases hpp : Api.pathParametersOf (pi.parameters.getD [] ++ op.parameters.getD []) c with
  | error e => simp [Api.compileOperation, hpp] at h
  | ok pps =>
    cases hE : Api.paramEntries fuel c (pi.parameters.getD [] ++ op.parameters.getD []) with
    | error e => simp [Api.compileOperation, Api.convertParametersToZod, hpp, hE] at h
    | ok E =>
      cases hrb : Api.convertRequestBodyToZod fuel op.requestBody c with
      | error e =>
        simp [Api.compileOperation, Api.convertParametersToZod, hpp, hE, hrb] at h
      | ok rb =>
        simp only [Api.compileOperation, Api.convertParametersToZod, hpp, hE, hrb,
          Except.ok.injEq] at h
        subst h
        exact ⟨pps, E, rfl, rfl, rfl, rfl⟩

/-- C6. Compilation merges the path-level and operation-level parameter
lists by spreading the path-level list before the operation-level one; since
`Object.fromEntries` keeps the last entry for a duplicated key, an
operation-level declaration replaces a path-level one of the same name
outright (last-one-set-wins, not a merge of the two constraints). -/
theorem operation_level_param_wins (fuel : Nat) (c : ComponentsNode)
    (pi : Api.PathItemObject) (op : Api.OperationObject)
    (pathLevel opLevel : List ParamOrRef) (e1 e2 : List (String × Zod))
    (n : String) (zOp : Zod) (os : Api.OperationSchema)
    (hPL : pi.parameters = some pathLevel) (hOP : op.parameters = some opLevel)
    (h1 : Api.paramEntries fuel c pathLevel = .ok e1)
    (h2 : Api.paramEntries fuel c opLevel = .ok e2)
    (hlast : lastVal e2 n = some zOp)
    (hcomp : Api.compileOperation fuel c pi op = .ok os) :
    lookupObj os.parameters n = some zOp := by
  obtain ⟨pps, E, hpp, hE, hppeq, hpar⟩ := compileOperation_ok fuel c pi op os hcomp
  rw [hPL, hOP] at hE
  simp only [Option.getD_some] at hE
  have hE2 : Api.paramEntries fuel c (pathLevel ++ opLevel) = .ok (e1 ++ e2) :=
    paramEntries_append fuel c pathLevel opLevel e1 e2 h1 h2
  rw [hE] at hE2
  have hEeq : E = e1 ++ e2 := (Except.ok.injEq _ _).mp hE2
  rw [hpar, hEeq, lookupObj_fromEntries, lastVal_append, hlast]

/-- The path-level declaration `limit: number`. -/
def limitPathItem : Api.PathItemObject :=
  ⟨some [.param limitNumberParam], [("post", limitPostOp)]⟩

/-- The compiled record for `POST` on that path: the operation-level
`limit: string` declaration wins. -/
def limitCompiled : Api.OperationSchema :=
  ⟨none, none, [], [("limit", .zstring)], none⟩

/-- C6 witness: with `limit: number` declared at path level and
`limit: string` at operation level, the compiled validator for `limit` is
the operation-level `z.string()`. -/
theorem operation_level_param_wins_witness :
    lookupObj limitCompiled.parameters "limit" = some .zstring :=
  operation_level_param_wins 1 (.obj []) limitPathItem limitPostOp
    [.param limitNumberParam] [.param limitStringParam]
    [("limit", .znumber)] [("limit", .zstring)] "limit" .zstring limitCompiled
    rfl rfl rfl rfl rfl rfl

theorem pathParamFilter_mem_ref (c : ComponentsNode) (r : String) (p : ParameterObject)
    (hres : resolveReference r c = .ok (.par p)) (hloc : p.inLoc = "path") :
    ∀ (ps kept : List ParamOrRef),
    Api.pathParamFilter c ps = .ok kept → ParamOrRef.ref r ∈ ps →
    ParamOrRef.ref r ∈ kept := by
  intro ps
  induction ps with
  | nil => intro kept h hmem; cases hmem
  | cons pr rest ih =>
    intro kept h hmem
    rcases List.mem_cons.mp hmem with heq | htail
    · subst heq
      cases hrest : Api.pathParamFilter c rest with
      | error e => simp [Api.pathParamFilter, hres, hrest] at h
      | ok kept0 =>
        simp only [Api.pathParamFilter, hres, hloc, hrest, beq_self_eq_true, if_true,
          Except.ok.injEq] at h
        subst h
        exact List.mem_cons_self _ _
    · cases pr with
      | param q =>
        cases hrest : Api.pathParamFilter c rest with
        | error e => simp [Api.pathParamFilter, hrest] at h
        | ok kept0 =>
          simp only [Api.pathParamFilter, hrest, Except.ok.injEq] at h
          subst h
          have hmem0 := ih kept0 hrest htail
          split
          · exact List.mem_cons_of_mem _ hmem0
          · exact hmem0
      | ref r0 =>
        cases hres0 : resolveReference r0 c with
        | error e => simp [Api.pathParamFilter, hres0] at h
        | ok node =>
          cases hrest : Api.pathParamFilter c rest with
          | error e => cases node <;> simp [Api.pathParamFilter, hres0, hrest] at h
          | ok kept0 =>
            have hmem0 := ih kept0 hrest htail
            cases node <;>
              (simp only [Api.pathParamFilter, hres0, hrest, Except.ok.injEq] at h;
               subst h) <;>
              first
                | exact hmem0
                | (split
                   · exact List.mem_cons_of_mem _ hmem0
                   · exact hmem0)

theorem pathParamNames_mem (c : ComponentsNode) (r : String) (p : ParameterObject)
    (hres : resolveReference r c = .ok (.par p)) :
    ∀ (kept : List ParamOrRef) (names : List String),
    Api.pathParamNames c kept = .ok names → ParamOrRef.ref r ∈ kept →
    p.name ∈ names := by
  intro kept
  induction kept with
  | nil => intro names h hmem; cases hmem
  | cons pr rest ih =>
    intro names h hmem
    rcases List.mem_cons.mp hmem with heq | htail
    · subst heq
      cases hrest : Api.pathParamNames c rest with
      | error e => simp [Api.pathParamNames, hres, hrest] at h
      | ok ns =>
        simp only [Api.pathParamNames, hres, hrest, Except.ok.injEq] at h
        subst h
        exact List.mem_cons_self _ _
    · cases pr with
      | param q =>
        cases hrest : Api.pathParamNames c rest with
        | error e => simp [Api.pathParamNames, hrest] at h
        | ok ns =>
          simp only [Api.pathParamNames, hrest, Except.ok.injEq] at h
          subst h
          exact List.mem_cons_of_mem _ (ih ns hrest htail)
      | ref r0 =>
        cases hres0 : resolveReference r0 c with
        | error e => simp [Api.pathParamNames, hres0] at h
        | ok node =>
          cases hrest : Api.pathParamNames c rest with
          | error e => cases node <;> simp [Api.pathParamNames, hres0, hrest] at h
          | ok ns =>
            cases node with
            | par q =>
              simp only [Api.pathParamNames, hres0, hrest, Except.ok.injEq] at h
              subst h
              exact List.mem_cons_of_mem _ (ih ns hrest htail)
            | obj fields => simp [Api.pathParamNames, hres0] at h
            | sch s => simp [Api.pathParamNames, hres0] at h
            | reqBody b => simp [Api.pathParamNames, hres0] at h

/-- C9. A parameter declared as a `$ref` is dropped by
`ensureParameterObject` before validator conversion, so the compiled
parameter map holds no entry under the referenced parameter's name, while
the `pathParameters` computation does resolve the reference: a `$ref` path
parameter appears in the path-parameter name list yet has no validator. -/
theorem ref_param_no_validator (fuel : Nat) (c : ComponentsNode)
    (pi : Api.PathItemObject) (op : Api.OperationObject)
    (r : String) (p : ParameterObject) (os : Api.OperationSchema)
    (hmem : ParamOrRef.ref r ∈ pi.parameters.getD [] ++ op.parameters.getD [])
    (hres : resolveReference r c = .ok (.par p))
    (hloc : p.inLoc = "path")
    (hnoinline : ∀ q, ParamOrRef.param q ∈ pi.parameters.getD [] ++ op.parameters.getD [] →
       q.name ≠ p.name)
    (hcomp : Api.compileOperation fuel c pi op = .ok os) :
    p.name ∈ os.pathParameters ∧ lookupObj os.parameters p.name = none := by
  obtain ⟨pps, E, hpp, hE, hppeq, hpar⟩ := compileOperation_ok fuel c pi op os hcomp
  constructor
  · unfold Api.pathParametersOf at hpp
    cases hflt : Api.pathParamFilter c (pi.parameters.getD [] ++ op.parameters.getD []) with
    | error e => rw [hflt] at hpp; cases hpp
    | ok kept =>
      rw [hflt] at hpp
      rw [hppeq]
      exact pathParamNames_mem c r p hres kept pps hpp
        (pathParamFilter_mem_ref c r p hres hloc _ kept hflt hmem)
  · rw [hpar, lookupObj_fromEntries]
    cases hl : lastVal E p.name with
    | none => rfl
    | some z =>
      obtain ⟨q, hq, hn⟩ :=
        paramEntries_keys fuel c _ E hE (p.name, z) (lastVal_some_mem E p.name z hl)
      exact absurd hn (hnoinline q hq)

/-- `{ name: "id", in: "path", required: true, schema: { type: string } }`,
registered under `#/components/parameters/IdParam`. -/
def idPathParam : ParameterObject := ⟨"id", "path", true, none, some stringSchema⟩

def refComponents : ComponentsNode :=
  .obj [("parameters", .obj [("IdParam", .par idPathParam)])]

/-- An operation whose only parameter is the `$ref` to `IdParam`. -/
def refOnlyOp : Api.OperationObject :=
  ⟨none, none, some [.ref "#/components/parameters/IdParam"], none, none⟩

def refOnlyPathItem : Api.PathItemObject := ⟨none, [("get", refOnlyOp)]⟩

/-- The compiled record: `id` is listed as a path parameter but gets no
validator entry. -/
def refOnlyCompiled : Api.OperationSchema := ⟨none, none, ["id"], [], none⟩

/-- C9 witness: the `$ref` path parameter `id` lands in `pathParameters`
while the compiled parameter map has no entry for it. -/
theorem ref_param_no_validator_witness :
    "id" ∈ refOnlyCompiled.pathParameters ∧
    lookupObj refOnlyCompiled.parameters "id" = none :=
  ref_param_no_validator 1 refComponents refOnlyPathItem refOnlyOp
    "#/components/parameters/IdParam" idPathParam refOnlyCompiled
    (by simp [refOnlyPathItem, refOnlyOp]) rfl rfl
    (by intro q hq; simp [refOnlyPathItem, refOnlyOp] at hq) rfl

/-! ## Tool-name assignment (claim C4) -/

theorem mem_addSet_self (s : List String) (x : String) : x ∈ Dispatch.addSet s x := by
  unfold Dispatch.addSet
  split
  · assumption
  · simp

theorem mem_addSet_of_mem (s : List String) (x y : String) (h : x ∈ s) :
    x ∈ Dispatch.addSet s y := by
  unfold Dispatch.addSet
  split
  · exact h
  · simp [h]

/-- Freshness of every collision suffix along an assignment run: whenever a
base name is already taken, the `` `${name}-${size}` `` candidate is not
itself already taken. This is exactly the condition under which the
registry-size collision rule keeps names distinct. -/
def noSuffixClash : List String → List String → Bool
  | [], _ => true
  | b :: rest, taken =>
    if b ∈ taken then
      if (b ++ "-" ++ toString taken.length) ∈ taken then false
      else noSuffixClash rest (Dispatch.addSet taken (b ++ "-" ++ toString taken.length))
    else noSuffixClash rest (Dispatch.addSet taken b)

theorem assignGo_nodup : ∀ (bases taken : List String),
    noSuffixClash bases taken = true →
    (Dispatch.assignGo bases taken).Nodup ∧
    ∀ x ∈ Dispatch.assignGo bases taken, x ∉ taken := by
  intro bases
  induction bases with
  | nil => intro taken _; exact ⟨List.nodup_nil, by simp [Dispatch.assignGo]⟩
  | cons b rest ih =>
    intro taken h
    by_cases hb : b ∈ taken
    · simp only [noSuffixClash, if_pos hb] at h
      by_cases hcand : (b ++ "-" ++ toString taken.length) ∈ taken
      · rw [if_pos hcand] at h
        cases h
      · rw [if_neg hcand] at h
        obtain ⟨hnodup, hfresh⟩ := ih _ h
        constructor
        · simp only [Dispatch.assignGo, if_pos hb]
          refine List.nodup_cons.mpr ⟨?_, hnodup⟩
          intro hmem
          exact hfresh _ hmem (mem_addSet_self taken _)
        · intro x hx
          simp only [Dispatch.assignGo, if_pos hb] at hx
          rcases List.mem_cons.mp hx with heq | htail
          · subst heq
            exact hcand
          · intro hxt
            exact hfresh x htail (mem_addSet_of_mem taken x _ hxt)
    · simp only [noSuffixClash, if_neg hb] at h
      obtain ⟨hnodup, hfresh⟩ := ih _ h
      constructor
      · simp only [Dispatch.assignGo, if_neg hb]
        refine List.nodup_cons.mpr ⟨?_, hnodup⟩
        intro hmem
        exact hfresh _ hmem (mem_addSet_self taken _)
      · intro x hx
        simp only [Dispatch.assignGo, if_neg hb] at hx
        rcases List.mem_cons.mp hx with heq | htail
        · subst heq
          exact hb
        · intro hxt
          exact hfresh x htail (mem_addSet_of_mem taken x _ hxt)

/-- C4 counterexample: the document paths `/a/2`, `/a`, `/a` sanitize to
`-a-2`, `-a`, `-a`; the third entry collides with `-a`, gets the registry
size `2` appended and becomes `-a-2` — which the first entry already owns.
The registry-building step thus assigns two entries the same identifier,
refuting unconditional distinctness. -/
theorem toolNames_collision_counterexample :
    Dispatch.buildToolNames ["/a/2", "/a", "/a"] = ["-a-2", "-a", "-a-2"] ∧
    ¬ (Dispatch.buildToolNames ["/a/2", "/a", "/a"]).Nodup := by
  constructor
  · rfl
  · decide

/-- C4 (amended). The identifier assignment is a pure function of the
endpoint list in iteration order (same document, same identifiers), and a
collision of the sanitized, truncated identifier is resolved by appending
the current registry size — but that suffixed name can itself collide with
an earlier identifier, so the assignment is distinct only on runs where
every suffixed candidate is fresh (`noSuffixClash`); the counterexample
shows distinctness fails without that condition. -/
theorem toolNames_nodup_of_noSuffixClash (endpoints : List String)
    (h : noSuffixClash (endpoints.map Dispatch.sanitizeEndpoint) [] = true) :
    (Dispatch.buildToolNames endpoints).Nodup :=
  (assignGo_nodup (endpoints.map Dispatch.sanitizeEndpoint) [] h).1

/-- C4 witness: `/gates` and `!gates` both sanitize to `-gates`; the second
gets the fresh suffix `-gates-1` and the assignment stays duplicate-free. -/
theorem toolNames_nodup_of_noSuffixClash_witness :
    noSuffixClash (["/gates", "!gates"].map Dispatch.sanitizeEndpoint) [] = true ∧
    Dispatch.buildToolNames ["/gates", "!gates"] = ["-gates", "-gates-1"] ∧
    (Dispatch.buildToolNames ["/gates", "!gates"]).Nodup :=
  ⟨rfl, rfl, toolNames_nodup_of_noSuffixClash ["/gates", "!gates"] rfl⟩

/-! ## Dispatch path interpolation (claim C2) -/

theorem string_append_empty (s : String) : s ++ "" = s := by
  apply String.ext
  show (s ++ "").data = s.data
  show s.data ++ [] = s.data
  simp

theorem method_ne_params_key (m : String) : ("method" : String) ≠ m ++ "_params" := by
  intro h
  have hlen : ("method" : String).length = (m ++ "_params").length := by rw [h]
  rw [String.length_append] at hlen
  have h6 : ("method" : String).length = 6 := rfl
  have h7 : ("_params" : String).length = 7 := rfl
  omega

/-- The tool registered for the document path `/gates/{id}` with a single
`GET` verb declaring `id` as a path parameter. -/
def gatesTool : Dispatch.ToolEndpoint :=
  ⟨"/gates/\x7bid\x7d", ["get"], [("get", ⟨some ["id"]⟩)]⟩

/-- C2 counterexample: dispatching the `/gates/{id}` tool without supplying
`id` does not fail — `buildRequest` succeeds and the issued request URL
still contains the literal `{id}` placeholder, so the handler proceeds to
the HTTP call instead of raising a dispatch error. -/
theorem dispatch_missing_path_param_counterexample :
    Dispatch.buildRequest "https://api.statsig.com" gatesTool [("method", .vstr "get")] =
      .ok ⟨"https://api.statsig.com/gates/\x7bid\x7d", "get"⟩ ∧
    Dispatch.containsSubstr "https://api.statsig.com/gates/\x7bid\x7d" "\x7bid\x7d" = true :=
  ⟨rfl, rfl⟩

/-- C2 (amended). The dispatch handler performs no check for unresolved
`\x7bname\x7d` placeholders: when the caller's bag supplies no parameters
for the selected verb, the request is built successfully with the endpoint
template passed through verbatim, so a declared path parameter's
placeholder is still present in the issued request URL; the only failure
the caller can see comes later, from the upstream HTTP status. -/
theorem dispatch_missing_path_param_passthrough (baseUrl endpoint m n : String)
    (pps : List String) (hm : m ≠ "") (hn : n ∈ pps)
    (hplace : Dispatch.containsSubstr endpoint ("\x7b" ++ n ++ "\x7d") = true) :
    ∃ req, Dispatch.buildRequest baseUrl ⟨endpoint, [m], [(m, ⟨some pps⟩)]⟩
        [("method", .vstr m)] = .ok req ∧
      req.url = baseUrl ++ endpoint ∧
      Dispatch.containsSubstr req.url ("\x7b" ++ n ++ "\x7d") = true := by
  refine ⟨⟨baseUrl ++ endpoint, m⟩, ?_, rfl, ?_⟩
  · unfold Dispatch.buildRequest
    simp [lookupObj, Dispatch.jsTruthy, Dispatch.jsString, hm,
      method_ne_params_key m, Dispatch.searchParamsToString, string_append_empty,
      show "&".intercalate ([] : List String) = "" from rfl]
  · rw [Dispatch.containsSubstr, decide_eq_true_iff] at hplace ⊢
    show _ <:+: (baseUrl ++ endpoint).data
    show _ <:+: baseUrl.data ++ endpoint.data
    obtain ⟨s, t, hst⟩ := hplace
    exact ⟨baseUrl.data ++ s, t, by rw [← hst]; simp⟩

/-! ## Dispatch failure surfacing (claim C8) -/

theorem containsSubstr_parts (pre st mid body : String) :
    Dispatch.containsSubstr (pre ++ st ++ mid ++ body) st = true ∧
    Dispatch.containsSubstr (pre ++ st ++ mid ++ body) body = true := by
  constructor
  · rw [Dispatch.containsSubstr, decide_eq_true_iff]
    show st.data <:+: (pre.data ++ st.data ++ mid.data ++ body.data)
    exact ⟨pre.data, mid.data ++ body.data, by simp⟩
  · rw [Dispatch.containsSubstr, decide_eq_true_iff]
    show body.data <:+: (pre.data ++ st.data ++ mid.data ++ body.data)
    exact ⟨pre.data ++ st.data ++ mid.data, [], by simp⟩

/-- C8. A dispatch whose upstream response has a non-success status returns
a structured failure whose message carries both the numeric status code and
the response body text — the failure propagates out of the handler rather
than being swallowed — and the registry component of the dispatch result is
the input registry unchanged, so subsequent calls see the same tools. -/
theorem dispatch_non2xx_failure (registry : Dispatch.Registry) (toolName baseUrl : String)
    (params : List (String × Value)) (resp : Dispatch.HttpResponse)
    (tool : Dispatch.ToolEndpoint) (req : Dispatch.HttpRequest)
    (hlook : lookupObj registry toolName = some tool)
    (hreq : Dispatch.buildRequest baseUrl tool params = .ok req)
    (hok : resp.ok = false) :
    ∃ msg, (Dispatch.dispatchCall registry toolName baseUrl params resp).1 = .error msg ∧
      Dispatch.containsSubstr msg (toString resp.status) = true ∧
      Dispatch.containsSubstr msg resp.body = true ∧
      (Dispatch.dispatchCall registry toolName baseUrl params resp).2 = registry := by
  refine ⟨"Error calling the API: API Error (" ++ toString resp.status ++ "): " ++ resp.body,
    ?_, (containsSubstr_parts _ _ _ _).1, (containsSubstr_parts _ _ _ _).2, rfl⟩
  simp [Dispatch.dispatchCall, hlook, hreq, Dispatch.handleDispatchResponse, hok]

/-- C8 witness: a 404 with body `gate not found` surfaces as a structured
error containing `404` and the body text, and the registry is unchanged. -/
theorem dispatch_non2xx_failure_witness :
    ∃ msg, (Dispatch.dispatchCall [("tool", gatesTool)] "tool" "https://api.statsig.com"
        [("method", .vstr "get"), ("get_params", .vobj [("id", .vstr "abc")])]
        ⟨false, 404, "gate not found", none⟩).1 = .error msg ∧
      Dispatch.containsSubstr msg (toString (404 : Nat)) = true ∧
      Dispatch.containsSubstr msg "gate not found" = true ∧
      (Dispatch.dispatchCall [("tool", gatesTool)] "tool" "https://api.statsig.com"
        [("method", .vstr "get"), ("get_params", .vobj [("id", .vstr "abc")])]
        ⟨false, 404, "gate not found", none⟩).2 = [("tool", gatesTool)] :=
  dispatch_non2xx_failure [("tool", gatesTool)] "tool" "https://api.statsig.com"
    [("method", .vstr "get"), ("get_params", .vobj [("id", .vstr "abc")])]
    ⟨false, 404, "gate not found", none⟩ gatesTool
    ⟨"https://api.statsig.com/gates/abc", "get"⟩ rfl rfl rfl

/-- C2 witness: for the `/gates/{id}` tool with `id` declared as a path
parameter and no `get_params` supplied, the request is built successfully
and its URL still contains `{id}`. -/
theorem dispatch_missing_path_param_passthrough_witness :
    ∃ req, Dispatch.buildRequest "https://api.statsig.com"
        ⟨"/gates/\x7bid\x7d", ["get"], [("get", ⟨some ["id"]⟩)]⟩
        [("method", .vstr "get")] = .ok req ∧
      req.url = "https://api.statsig.com" ++ "/gates/\x7bid\x7d" ∧
      Dispatch.containsSubstr req.url ("\x7b" ++ "id" ++ "\x7d") = true :=
  dispatch_missing_path_param_passthrough "https://api.statsig.com" "/gates/\x7bid\x7d"
    "get" "id" ["id"] (by decide) (by decide) rfl
